import Mathlib

/-!
Verification of the `line-straddler` crate (src/src/lib.rs): a streaming
merger that turns a stream of glyphs into horizontal decoration lines
(underline / overline / strike-through).

Shallow embedding conventions:
* Rust `f32` values are modelled as exact rationals `ℚ`.  The algorithm only
  uses addition, subtraction, halving, comparison and absolute value, all of
  which are exact on the inputs the claims quantify over, so no rounding
  behaviour is modelled.
* Rust `u8` / `u32` are modelled as `Nat`; byte-sized inputs carry explicit
  `< 256` hypotheses where the Rust type system imposes `u8`.
* `&mut self` methods are modelled as state-passing functions returning a
  pair of the Rust return value and the updated receiver.
-/

unseal Rat.add Rat.sub Rat.mul Rat.inv

namespace LineStraddler

/-- 32-bit RGBA color (struct `Color(u32)`, src/src/lib.rs:127). -/
structure Color where
  val : Nat
deriving DecidableEq

/-- `Color::rgba` (src/src/lib.rs:132-134):
`((r as u32) << 24) | ((g as u32) << 16) | ((b as u32) << 8) | (a as u32)`.
The Rust inputs are `u8`, so no `u32` overflow can occur and no `% 2^32`
is needed; theorems carry the `< 256` bounds of `u8`. -/
def Color.rgba (r g b a : Nat) : Color :=
  ⟨(r <<< 24) ||| (g <<< 16) ||| (b <<< 8) ||| a⟩

/-- `Color::red` (src/src/lib.rs:138-140). -/
def Color.red (c : Color) : Nat :=
  (c.val >>> 24) &&& 0xFF

/-- `Color::green` (src/src/lib.rs:144-146). -/
def Color.green (c : Color) : Nat :=
  (c.val >>> 16) &&& 0xFF

/-- `Color::blue` (src/src/lib.rs:150-152). -/
def Color.blue (c : Color) : Nat :=
  (c.val >>> 8) &&& 0xFF

/-- `Color::alpha` (src/src/lib.rs:156-158). -/
def Color.alpha (c : Color) : Nat :=
  c.val &&& 0xFF

/-- `Color::components` (src/src/lib.rs:162-164). -/
def Color.components (c : Color) : List Nat :=
  [c.red, c.green, c.blue, c.alpha]

/-- Glyph styling information (struct `GlyphStyle`, src/src/lib.rs:117-123). -/
structure GlyphStyle where
  bold : Bool
  color : Color
deriving DecidableEq

/-- A glyph to be rendered (struct `Glyph`, src/src/lib.rs:98-113). -/
structure Glyph where
  line_y : ℚ
  font_size : ℚ
  width : ℚ
  x : ℚ
  style : GlyphStyle
deriving DecidableEq

/-- The horizontal line that needs to be rendered (struct `Line`,
src/src/lib.rs:170-182). -/
structure Line where
  y : ℚ
  start_x : ℚ
  end_x : ℚ
  style : GlyphStyle
deriving DecidableEq

/-- What kind of line are we trying to produce? (enum `LineType`,
src/src/lib.rs:187-196). -/
inductive LineType where
  | Overline : LineType
  | StrikeThrough : LineType
  | Underline : LineType
deriving DecidableEq

/-- `LineType::offset` (src/src/lib.rs:200-206). -/
def LineType.offset (t : LineType) (font_size : ℚ) : ℚ :=
  match t with
  | .Overline => 0
  | .StrikeThrough => font_size / 2
  | .Underline => font_size

/-- Internal accumulator (struct `OngoingLine`, src/src/lib.rs:280-298),
field order as in the source. -/
structure OngoingLine where
  y : ℚ
  start_x : ℚ
  end_x : ℚ
  style : GlyphStyle
  last_line_y : ℚ
  font_size : ℚ
deriving DecidableEq

/-- `From<OngoingLine> for Line` (src/src/lib.rs:300-309). -/
def Line.ofOngoingLine (line : OngoingLine) : Line :=
  { y := line.y
    start_x := line.start_x
    end_x := line.end_x
    style := line.style }

/-- The generator for lines (struct `LineGenerator`, src/src/lib.rs:211-217). -/
structure LineGenerator where
  ongoing_line : Option OngoingLine
  line_type : LineType
deriving DecidableEq

/-- `EPSILON` (src/src/lib.rs:342): the fixed tolerance `0.001`. -/
def EPSILON : ℚ := 1 / 1000

/-- Tell if two floats are approximately equal (`approx_eq`,
src/src/lib.rs:312-314): `abs(a - b) < EPSILON`.  The source's `abs` helper
(src/src/lib.rs:336-340) is the exact absolute value in both the `std` and
the `libm` backend, modelled here by the absolute value on `ℚ`. -/
def approx_eq (a b : ℚ) : Bool :=
  decide (|a - b| < EPSILON)

/-- `LineGenerator::new` (src/src/lib.rs:222-227). -/
def LineGenerator.new (ty : LineType) : LineGenerator :=
  { ongoing_line := none, line_type := ty }

/-- `LineGenerator::pop_line` (src/src/lib.rs:231-233):
`self.ongoing_line.take().map(Into::into)`.  Returns the popped line and
the updated generator. -/
def LineGenerator.pop_line (g : LineGenerator) : Option Line × LineGenerator :=
  (g.ongoing_line.map Line.ofOngoingLine, { g with ongoing_line := none })

/-- The fall-through tail of `add_glyph_impl` (src/src/lib.rs:258-275):
start a new ongoing line, snap the old line's `end_x` to `glyph.x` when the
old line is on (approximately) the same text line, and emit the old line. -/
def LineGenerator.start_new_line (g : LineGenerator) (glyph : Glyph) :
    Option Line × LineGenerator :=
  let old_line := g.ongoing_line
  let replaced : OngoingLine :=
    { y := glyph.line_y + g.line_type.offset glyph.font_size
      last_line_y := glyph.line_y
      start_x := glyph.x
      end_x := glyph.x + glyph.width
      style := glyph.style
      font_size := glyph.font_size }
  let old_line := old_line.map fun old =>
    if approx_eq old.last_line_y glyph.line_y then
      { old with end_x := glyph.x }
    else
      old
  (old_line.map Line.ofOngoingLine, { g with ongoing_line := some replaced })

/-- The extension condition of `add_glyph_impl` (src/src/lib.rs:247-250). -/
def extendCond (line : OngoingLine) (glyph : Glyph) : Bool :=
  approx_eq line.last_line_y glyph.line_y
    && decide (line.end_x ≤ glyph.x)
    && approx_eq line.font_size glyph.font_size
    && decide (line.style = glyph.style)

/-- `LineGenerator::add_glyph_impl` (src/src/lib.rs:244-276).  If a line is
ongoing and the glyph matches it, just extend it (only `end_x` is written,
src/src/lib.rs:253) and emit nothing; otherwise fall through to
`start_new_line`. -/
def LineGenerator.add_glyph_impl (g : LineGenerator) (glyph : Glyph) :
    Option Line × LineGenerator :=
  match g.ongoing_line with
  | some line =>
    if extendCond line glyph then
      (none, { g with ongoing_line := some { line with end_x := glyph.x + glyph.width } })
    else
      g.start_new_line glyph
  | none => g.start_new_line glyph

/-- `LineGenerator::add_glyph` (src/src/lib.rs:239-241): delegates to
`add_glyph_impl` (the `impl Into<Glyph>` generic is the identity here). -/
def LineGenerator.add_glyph (g : LineGenerator) (glyph : Glyph) :
    Option Line × LineGenerator :=
  g.add_glyph_impl glyph

/-- Feed a stream of glyphs one at a time to `add_glyph`, then flush with one
`pop_line`, collecting every emitted `Line` in order.  This is the calling
pattern of the crate's doc example (src/src/lib.rs:74-77) and of
src/tests/smoke.rs. -/
def runLines (g : LineGenerator) : List Glyph → List Line
  | [] => (g.pop_line).fst.toList
  | glyph :: rest =>
    (g.add_glyph_impl glyph).fst.toList ++ runLines (g.add_glyph_impl glyph).snd rest

/-- Modelled from the spec: the data a maximal run carries while it is being
grouped — the `line_y`, `font_size` and `style` of the glyph that opened the
run, and the right edge `end_x` of the most recently absorbed glyph.  Used
only to state the stream-level counting claim. -/
structure SpecRunState where
  line_y : ℚ
  font_size : ℚ
  style : GlyphStyle
  end_x : ℚ
deriving DecidableEq

/-- Modelled from the spec: a glyph belongs to the current maximal run when
its `line_y` and `font_size` are approximately equal to the run's (those of
the glyph that opened the run), its `style` is equal, and its x-extent
continues forward without overlap (the run's current right edge is ≤ the
glyph's `x`). -/
def SpecRunState.accepts (s : SpecRunState) (glyph : Glyph) : Bool :=
  approx_eq s.line_y glyph.line_y
    && decide (s.end_x ≤ glyph.x)
    && approx_eq s.font_size glyph.font_size
    && decide (s.style = glyph.style)

/-- Modelled from the spec: count the maximal runs of a glyph stream by
greedy grouping, given the state of the run currently being grouped (if
any).  A glyph that matches the open run extends it (advancing its right
edge); any other glyph ends the run and opens a new one. -/
def countRunsAux : Option SpecRunState → List Glyph → Nat
  | none, [] => 0
  | some _, [] => 1
  | none, glyph :: rest =>
    countRunsAux (some ⟨glyph.line_y, glyph.font_size, glyph.style, glyph.x + glyph.width⟩) rest
  | some s, glyph :: rest =>
    if s.accepts glyph then
      countRunsAux (some { s with end_x := glyph.x + glyph.width }) rest
    else
      1 + countRunsAux (some ⟨glyph.line_y, glyph.font_size, glyph.style, glyph.x + glyph.width⟩) rest

/-- Modelled from the spec: the number of maximal runs in a glyph stream
(maximal sequences of consecutive glyphs with approximately equal `line_y`
and `font_size`, equal `style`, and non-overlapping forward x-extents). -/
def maximalRunCount (glyphs : List Glyph) : Nat :=
  countRunsAux none glyphs

/-- The run-grouping data visible in the generator's accumulator: because the
extension path writes only `end_x` (src/src/lib.rs:253), `last_line_y` and
`font_size` still hold the values of the glyph that opened the run. -/
def toRunState (o : Option OngoingLine) : Option SpecRunState :=
  o.map fun line => ⟨line.last_line_y, line.font_size, line.style, line.end_x⟩

/-- The accumulator invariant behind `end_x ≥ start_x` on emitted lines. -/
def goodRun (o : Option OngoingLine) : Prop :=
  ∀ line, o = some line → line.start_x ≤ line.end_x

/-- The glyph style used by the concrete witness inputs (as in
src/tests/smoke.rs:27-30). -/
def exStyle : GlyphStyle :=
  ⟨false, Color.rgba 0 0 0 255⟩

end LineStraddler

namespace LineStraddler

/-! ## Basic characterizations -/

theorem approx_eq_iff (a b : ℚ) : approx_eq a b = true ↔ |a - b| < EPSILON := by
  simp [approx_eq]

theorem extendCond_iff (line : OngoingLine) (glyph : Glyph) :
    extendCond line glyph = true ↔
      (|line.last_line_y - glyph.line_y| < EPSILON ∧ line.end_x ≤ glyph.x ∧
        |line.font_size - glyph.font_size| < EPSILON ∧ line.style = glyph.style) := by
  simp [extendCond, approx_eq, Bool.and_eq_true, decide_eq_true_iff, and_assoc]

/-! ## Claim theorems -/

/-- C5: `pop_line` returns the current open run converted to a `Line` (the
map of `ongoing_line`, hence nothing when no run is open) and leaves the
generator with no open run, so of two consecutive `pop_line` calls the first
yields a value exactly when a run was open and the second always yields
nothing. -/
theorem C5_pop_line_flush (g : LineGenerator) :
    (g.pop_line).fst = g.ongoing_line.map Line.ofOngoingLine ∧
    (g.pop_line).snd.ongoing_line = none ∧
    ((g.pop_line).snd.pop_line).fst = none :=
  ⟨rfl, rfl, rfl⟩

/-- C10: after every `add_glyph`, regardless of the prior state and the
glyph's values, the generator holds an open run, so a `pop_line` immediately
following any `add_glyph` always yields a `Line`. -/
theorem C10_add_glyph_opens_run (g : LineGenerator) (glyph : Glyph) :
    (g.add_glyph_impl glyph).snd.ongoing_line.isSome = true ∧
    ((g.add_glyph_impl glyph).snd.pop_line).fst.isSome = true := by
  cases h : g.ongoing_line with
  | none =>
    simp [LineGenerator.add_glyph_impl, h, LineGenerator.start_new_line,
      LineGenerator.pop_line]
  | some line =>
    by_cases hc : extendCond line glyph = true
    · simp [LineGenerator.add_glyph_impl, h, hc, LineGenerator.pop_line]
    · simp [LineGenerator.add_glyph_impl, h, hc, LineGenerator.start_new_line,
        LineGenerator.pop_line]

/-- C8: the vertical offset added to `line_y` is exactly `0` for `Overline`,
half the font size for `StrikeThrough` and the font size for `Underline`;
and whenever `add_glyph` opens a new run (the glyph does not extend the open
run, if any), the new run's `y` is `glyph.line_y` plus this offset of the
generator's line type at `glyph.font_size`. -/
theorem C8_offset_y (f : ℚ) (g : LineGenerator) (glyph : Glyph)
    (h : (g.ongoing_line.all fun line => !extendCond line glyph) = true) :
    LineType.offset .Overline f = 0 ∧
    LineType.offset .StrikeThrough f = f / 2 ∧
    LineType.offset .Underline f = f ∧
    ∃ r, (g.add_glyph_impl glyph).snd.ongoing_line = some r ∧
      r.y = glyph.line_y + g.line_type.offset glyph.font_size := by
  refine ⟨rfl, rfl, rfl,
    ⟨{ y := glyph.line_y + g.line_type.offset glyph.font_size, start_x := glyph.x,
        end_x := glyph.x + glyph.width, style := glyph.style,
        last_line_y := glyph.line_y, font_size := glyph.font_size }, ?_, rfl⟩⟩
  cases hg : g.ongoing_line with
  | none =>
    simp [LineGenerator.add_glyph_impl, hg, LineGenerator.start_new_line]
  | some line =>
    have hc : extendCond line glyph = false := by
      have h2 := h
      rw [hg] at h2
      simpa [Option.all] using h2
    simp [LineGenerator.add_glyph_impl, hg, hc, LineGenerator.start_new_line]

/-- Witness for C8 at a concrete input: an idle strike-through generator and
the glyph `(line_y 5, font_size 4, width 2, x 3)`; the opened run's `y` is
`5 + 4 / 2`. -/
theorem C8_offset_y_witness :
    ((((LineGenerator.new .StrikeThrough).ongoing_line).all
        fun line => !extendCond line ⟨5, 4, 2, 3, exStyle⟩) = true) ∧
    (LineType.offset .Overline 4 = 0 ∧
      LineType.offset .StrikeThrough 4 = 4 / 2 ∧
      LineType.offset .Underline 4 = 4 ∧
      ∃ r, ((LineGenerator.new .StrikeThrough).add_glyph_impl
            ⟨5, 4, 2, 3, exStyle⟩).snd.ongoing_line = some r ∧
        r.y = 5 + (LineGenerator.new .StrikeThrough).line_type.offset 4) :=
  ⟨rfl, C8_offset_y 4 (LineGenerator.new .StrikeThrough) ⟨5, 4, 2, 3, exStyle⟩ rfl⟩

/-- C1: with an open run, `add_glyph` extends it — emits nothing and keeps
the run with only `end_x` advanced to `glyph.x + glyph.width` — if and only
if all four conditions hold: the run's `last_line_y` is within `EPSILON`
(`0.001`) of `glyph.line_y`, the run's `end_x` is ≤ `glyph.x`, the run's
`font_size` is within `EPSILON` of `glyph.font_size`, and the run's `style`
equals `glyph.style`. -/
theorem C1_extend_iff (g : LineGenerator) (line : OngoingLine) (glyph : Glyph)
    (h : g.ongoing_line = some line) :
    ((g.add_glyph_impl glyph).fst = none ∧
        (g.add_glyph_impl glyph).snd.ongoing_line =
          some { line with end_x := glyph.x + glyph.width }) ↔
      (|line.last_line_y - glyph.line_y| < EPSILON ∧ line.end_x ≤ glyph.x ∧
        |line.font_size - glyph.font_size| < EPSILON ∧ line.style = glyph.style) := by
  rw [← extendCond_iff]
  by_cases hc : extendCond line glyph = true
  · simp [LineGenerator.add_glyph_impl, h, hc]
  · simp [LineGenerator.add_glyph_impl, h, hc, LineGenerator.start_new_line]

/-- Witness for C1 at a concrete input: a generator whose open run ends at
`x = 5` and a matching glyph starting at `x = 5`. -/
theorem C1_extend_iff_witness :
    ((⟨some ⟨4, 0, 5, exStyle, 0, 4⟩, .Underline⟩ : LineGenerator).ongoing_line =
        some ⟨4, 0, 5, exStyle, 0, 4⟩) ∧
    ((((⟨some ⟨4, 0, 5, exStyle, 0, 4⟩, .Underline⟩ : LineGenerator).add_glyph_impl
            ⟨0, 4, 2, 5, exStyle⟩).fst = none ∧
        ((⟨some ⟨4, 0, 5, exStyle, 0, 4⟩, .Underline⟩ : LineGenerator).add_glyph_impl
            ⟨0, 4, 2, 5, exStyle⟩).snd.ongoing_line =
          some ⟨4, 0, 5 + 2, exStyle, 0, 4⟩) ↔
      (|(0 : ℚ) - 0| < EPSILON ∧ (5 : ℚ) ≤ 5 ∧ |(4 : ℚ) - 4| < EPSILON ∧
        exStyle = exStyle)) :=
  ⟨rfl, C1_extend_iff ⟨some ⟨4, 0, 5, exStyle, 0, 4⟩, .Underline⟩
    ⟨4, 0, 5, exStyle, 0, 4⟩ ⟨0, 4, 2, 5, exStyle⟩ rfl⟩

end LineStraddler

namespace LineStraddler

/-- The second style used by concrete witness inputs (as in
src/tests/smoke.rs:98-101). -/
def exStyle2 : GlyphStyle :=
  ⟨false, Color.rgba 255 255 255 255⟩

/-- C2: when `add_glyph` closes the open run and starts a new one, the
emitted line's `end_x` is snapped to the new glyph's `x` when the closed
run's `last_line_y` is within `EPSILON` of the glyph's `line_y`, and is the
run's accumulated `end_x`, unchanged, otherwise. -/
theorem C2_close_snap (g : LineGenerator) (line : OngoingLine) (glyph : Glyph)
    (h : g.ongoing_line = some line)
    (hc : ¬(|line.last_line_y - glyph.line_y| < EPSILON ∧ line.end_x ≤ glyph.x ∧
      |line.font_size - glyph.font_size| < EPSILON ∧ line.style = glyph.style)) :
    ∃ l, (g.add_glyph_impl glyph).fst = some l ∧
      l.end_x = if |line.last_line_y - glyph.line_y| < EPSILON then glyph.x
        else line.end_x := by
  have hb : extendCond line glyph = false := by
    cases hEq : extendCond line glyph
    · rfl
    · exact absurd ((extendCond_iff _ _).mp hEq) hc
  by_cases ha : |line.last_line_y - glyph.line_y| < EPSILON
  · refine ⟨Line.ofOngoingLine { line with end_x := glyph.x }, ?_, ?_⟩
    · simp [LineGenerator.add_glyph_impl, h, hb, LineGenerator.start_new_line,
        approx_eq, ha]
    · simp [Line.ofOngoingLine, ha]
  · refine ⟨Line.ofOngoingLine line, ?_, ?_⟩
    · simp [LineGenerator.add_glyph_impl, h, hb, LineGenerator.start_new_line,
        approx_eq, ha]
    · simp [Line.ofOngoingLine, ha]

/-- Witness for C2 at a concrete input: a run on line 0 ending at `x = 5`
closed by a same-line glyph of a different style at `x = 6`; the emitted
line ends at 6. -/
theorem C2_close_snap_witness :
    ((⟨some ⟨0, 0, 5, exStyle, 0, 4⟩, .Overline⟩ : LineGenerator).ongoing_line =
        some ⟨0, 0, 5, exStyle, 0, 4⟩) ∧
    ¬(|(0 : ℚ) - 0| < EPSILON ∧ (5 : ℚ) ≤ 6 ∧ |(4 : ℚ) - 4| < EPSILON ∧
        exStyle = exStyle2) ∧
    (∃ l, ((⟨some ⟨0, 0, 5, exStyle, 0, 4⟩, .Overline⟩ : LineGenerator).add_glyph_impl
          ⟨0, 4, 2, 6, exStyle2⟩).fst = some l ∧
      l.end_x = if |(0 : ℚ) - 0| < EPSILON then (6 : ℚ) else 5) :=
  ⟨rfl, by decide,
    C2_close_snap ⟨some ⟨0, 0, 5, exStyle, 0, 4⟩, .Overline⟩ ⟨0, 0, 5, exStyle, 0, 4⟩
      ⟨0, 4, 2, 6, exStyle2⟩ rfl (by decide)⟩

/-- C3 counterexample: the claim says an extending glyph updates the run's
`last_line_y` and `font_size` to the glyph's values, but the extension path
writes only `end_x` (src/src/lib.rs:253).  Concretely: a run opened at
`line_y = 0`, `font_size = 4` is extended by the glyph
`(line_y = 1/2000, font_size = 4 + 1/2000, width 2, x 5)` — all four
extension conditions hold and nothing is emitted — yet the run's
`last_line_y` stays `0 ≠ 1/2000` and its `font_size` stays `4 ≠ 4 + 1/2000`. -/
theorem C3_counterexample :
    extendCond ⟨4, 0, 5, exStyle, 0, 4⟩ ⟨1/2000, 4 + 1/2000, 2, 5, exStyle⟩ = true ∧
    ((⟨some ⟨4, 0, 5, exStyle, 0, 4⟩, .Underline⟩ : LineGenerator).add_glyph_impl
        ⟨1/2000, 4 + 1/2000, 2, 5, exStyle⟩).fst = none ∧
    ¬(((⟨some ⟨4, 0, 5, exStyle, 0, 4⟩, .Underline⟩ : LineGenerator).add_glyph_impl
        ⟨1/2000, 4 + 1/2000, 2, 5, exStyle⟩).snd.ongoing_line.map
          OngoingLine.last_line_y = some (1/2000)) ∧
    ¬(((⟨some ⟨4, 0, 5, exStyle, 0, 4⟩, .Underline⟩ : LineGenerator).add_glyph_impl
        ⟨1/2000, 4 + 1/2000, 2, 5, exStyle⟩).snd.ongoing_line.map
          OngoingLine.font_size = some (4 + 1/2000)) := by
  decide

/-- C3 (amended): for every call to `add_glyph` that extends the open run,
the run's `end_x` is set to `glyph.x + glyph.width`, every other field of
the run — including `last_line_y` and `font_size` — is left unchanged, and
no `Line` is emitted. -/
theorem C3_extend_amended (g : LineGenerator) (line : OngoingLine) (glyph : Glyph)
    (h : g.ongoing_line = some line)
    (hc : |line.last_line_y - glyph.line_y| < EPSILON ∧ line.end_x ≤ glyph.x ∧
      |line.font_size - glyph.font_size| < EPSILON ∧ line.style = glyph.style) :
    (g.add_glyph_impl glyph).fst = none ∧
    (g.add_glyph_impl glyph).snd.ongoing_line =
      some { line with end_x := glyph.x + glyph.width } := by
  have hb : extendCond line glyph = true := (extendCond_iff line glyph).mpr hc
  simp [LineGenerator.add_glyph_impl, h, hb]

/-- Witness for C3 (amended) at a concrete input: the drifting glyph of the
counterexample extends the run, only `end_x` changes. -/
theorem C3_extend_amended_witness :
    ((⟨some ⟨4, 0, 5, exStyle, 0, 4⟩, .Underline⟩ : LineGenerator).ongoing_line =
        some ⟨4, 0, 5, exStyle, 0, 4⟩) ∧
    (|(0 : ℚ) - 1/2000| < EPSILON ∧ (5 : ℚ) ≤ 5 ∧
      |(4 : ℚ) - (4 + 1/2000)| < EPSILON ∧ exStyle = exStyle) ∧
    (((⟨some ⟨4, 0, 5, exStyle, 0, 4⟩, .Underline⟩ : LineGenerator).add_glyph_impl
        ⟨1/2000, 4 + 1/2000, 2, 5, exStyle⟩).fst = none ∧
      ((⟨some ⟨4, 0, 5, exStyle, 0, 4⟩, .Underline⟩ : LineGenerator).add_glyph_impl
        ⟨1/2000, 4 + 1/2000, 2, 5, exStyle⟩).snd.ongoing_line =
        some ⟨4, 0, 5 + 2, exStyle, 0, 4⟩) :=
  ⟨rfl, ⟨by decide, by decide, by decide, rfl⟩,
    C3_extend_amended ⟨some ⟨4, 0, 5, exStyle, 0, 4⟩, .Underline⟩
      ⟨4, 0, 5, exStyle, 0, 4⟩ ⟨1/2000, 4 + 1/2000, 2, 5, exStyle⟩ rfl
      ⟨by decide, by decide, by decide, rfl⟩⟩

/-- C4: a glyph starting strictly before the open run's `end_x` closes the
run — it is emitted as a `Line` — and a new run anchored at the glyph is
opened, even when line, font size and style all match; the overlap is never
absorbed by extending the run. -/
theorem C4_overlap_splits (g : LineGenerator) (line : OngoingLine) (glyph : Glyph)
    (h : g.ongoing_line = some line)
    (hov : glyph.x < line.end_x)
    (hly : |line.last_line_y - glyph.line_y| < EPSILON)
    (hfs : |line.font_size - glyph.font_size| < EPSILON)
    (hst : line.style = glyph.style) :
    (∃ l, (g.add_glyph_impl glyph).fst = some l) ∧
    (g.add_glyph_impl glyph).snd.ongoing_line =
      some { y := glyph.line_y + g.line_type.offset glyph.font_size,
             start_x := glyph.x, end_x := glyph.x + glyph.width,
             style := glyph.style, last_line_y := glyph.line_y,
             font_size := glyph.font_size } := by
  have hb : extendCond line glyph = false := by
    cases hEq : extendCond line glyph
    · rfl
    · exact absurd ((extendCond_iff _ _).mp hEq).2.1 (not_le.mpr hov)
  constructor
  · refine ⟨Line.ofOngoingLine { line with end_x := glyph.x }, ?_⟩
    simp [LineGenerator.add_glyph_impl, h, hb, LineGenerator.start_new_line,
      approx_eq, hly]
  · simp [LineGenerator.add_glyph_impl, h, hb, LineGenerator.start_new_line]

/-- Witness for C4 at the spec's scenario: a run ending at `x = 5` followed
by an otherwise identical glyph at `x = 3`. -/
theorem C4_overlap_splits_witness :
    ((⟨some ⟨0, 0, 5, exStyle, 0, 4⟩, .Overline⟩ : LineGenerator).ongoing_line =
        some ⟨0, 0, 5, exStyle, 0, 4⟩) ∧
    ((3 : ℚ) < 5) ∧ (|(0 : ℚ) - 0| < EPSILON) ∧ (|(4 : ℚ) - 4| < EPSILON) ∧
    (exStyle = exStyle) ∧
    ((∃ l, ((⟨some ⟨0, 0, 5, exStyle, 0, 4⟩, .Overline⟩ : LineGenerator).add_glyph_impl
          ⟨0, 4, 2, 3, exStyle⟩).fst = some l) ∧
      ((⟨some ⟨0, 0, 5, exStyle, 0, 4⟩, .Overline⟩ : LineGenerator).add_glyph_impl
          ⟨0, 4, 2, 3, exStyle⟩).snd.ongoing_line =
        some { y := 0 + LineType.offset .Overline 4, start_x := 3, end_x := 3 + 2,
               style := exStyle, last_line_y := 0, font_size := 4 }) :=
  ⟨rfl, by decide, by decide, by decide, rfl,
    C4_overlap_splits ⟨some ⟨0, 0, 5, exStyle, 0, 4⟩, .Overline⟩
      ⟨0, 0, 5, exStyle, 0, 4⟩ ⟨0, 4, 2, 3, exStyle⟩ rfl (by decide) (by decide)
      (by decide) rfl⟩

end LineStraddler

namespace LineStraddler

theorem bool_eq_false {b : Bool} (h : ¬b = true) : b = false := by
  cases b
  · rfl
  · exact absurd rfl h

/-- C7: every `Line` emitted by `add_glyph` or `pop_line` satisfies
`start_x ≤ end_x`, provided the caller respects the input contract.  The
contract is rendered at the state level: the open run is well-ordered
(`goodRun`), the glyph's width is non-negative, and a glyph on
(approximately) the same text line as the open run does not start before the
run's `start_x` — the state-level consequence of feeding, within a maximal
same-line sequence, glyphs with non-decreasing `x`.  The well-ordering of
the open run is preserved, so the hypotheses re-establish themselves along
any contract-respecting stream. -/
theorem C7_emitted_ordered (g : LineGenerator) (glyph : Glyph)
    (hinv : goodRun g.ongoing_line)
    (hw : 0 ≤ glyph.width)
    (hx : ∀ line, g.ongoing_line = some line →
      |line.last_line_y - glyph.line_y| < EPSILON → line.start_x ≤ glyph.x) :
    (∀ l, (g.add_glyph_impl glyph).fst = some l → l.start_x ≤ l.end_x) ∧
    goodRun (g.add_glyph_impl glyph).snd.ongoing_line ∧
    (∀ l, (g.pop_line).fst = some l → l.start_x ≤ l.end_x) := by
  have hpop : ∀ l, (g.pop_line).fst = some l → l.start_x ≤ l.end_x := by
    intro l hl
    cases hg : g.ongoing_line with
    | none => simp [LineGenerator.pop_line, hg] at hl
    | some line =>
      have hline := hinv line hg
      simp [LineGenerator.pop_line, hg] at hl
      subst hl
      simpa [Line.ofOngoingLine] using hline
  cases hg : g.ongoing_line with
  | none =>
    refine ⟨?_, ?_, hpop⟩
    · intro l hl
      simp [LineGenerator.add_glyph_impl, hg, LineGenerator.start_new_line] at hl
    · intro line2 hline2
      simp [LineGenerator.add_glyph_impl, hg, LineGenerator.start_new_line] at hline2
      subst hline2
      simp
      linarith
  | some line =>
    have hline := hinv line hg
    by_cases hc : extendCond line glyph = true
    · have hcond := (extendCond_iff _ _).mp hc
      refine ⟨?_, ?_, hpop⟩
      · intro l hl
        simp [LineGenerator.add_glyph_impl, hg, hc] at hl
      · intro line2 hline2
        simp [LineGenerator.add_glyph_impl, hg, hc] at hline2
        subst hline2
        simp
        have h2 := hcond.2.1
        linarith
    · have hcf : extendCond line glyph = false := bool_eq_false hc
      refine ⟨?_, ?_, hpop⟩
      · intro l hl
        by_cases ha : approx_eq line.last_line_y glyph.line_y = true
        · simp [LineGenerator.add_glyph_impl, hg, hcf, LineGenerator.start_new_line,
            ha] at hl
          subst hl
          have hax := hx line hg ((approx_eq_iff _ _).mp ha)
          simpa [Line.ofOngoingLine] using hax
        · have haf : approx_eq line.last_line_y glyph.line_y = false := bool_eq_false ha
          simp [LineGenerator.add_glyph_impl, hg, hcf, LineGenerator.start_new_line,
            haf] at hl
          subst hl
          simpa [Line.ofOngoingLine] using hline
      · intro line2 hline2
        simp [LineGenerator.add_glyph_impl, hg, hcf, LineGenerator.start_new_line]
          at hline2
        subst hline2
        simp
        linarith

/-- Witness for C7 at a concrete input: an open run from `x = 0` to `x = 5`
on line 0 and a same-line glyph at `x = 6` of width 2. -/
theorem C7_emitted_ordered_witness :
    goodRun (⟨some ⟨0, 0, 5, exStyle, 0, 4⟩, .Overline⟩ : LineGenerator).ongoing_line ∧
    ((0 : ℚ) ≤ 2) ∧
    (∀ line, (⟨some ⟨0, 0, 5, exStyle, 0, 4⟩, .Overline⟩ : LineGenerator).ongoing_line =
        some line → |line.last_line_y - (0 : ℚ)| < EPSILON → line.start_x ≤ (6 : ℚ)) ∧
    ((∀ l, ((⟨some ⟨0, 0, 5, exStyle, 0, 4⟩, .Overline⟩ : LineGenerator).add_glyph_impl
          ⟨0, 4, 2, 6, exStyle⟩).fst = some l → l.start_x ≤ l.end_x) ∧
      goodRun ((⟨some ⟨0, 0, 5, exStyle, 0, 4⟩, .Overline⟩ : LineGenerator).add_glyph_impl
          ⟨0, 4, 2, 6, exStyle⟩).snd.ongoing_line ∧
      (∀ l, ((⟨some ⟨0, 0, 5, exStyle, 0, 4⟩, .Overline⟩ : LineGenerator).pop_line).fst =
          some l → l.start_x ≤ l.end_x)) :=
  ⟨fun line hl => Option.some.inj hl ▸
      (by decide : (0 : ℚ) ≤ (5 : ℚ)),
    by decide,
    fun line hl _ => Option.some.inj hl ▸
      (by decide : (0 : ℚ) ≤ (6 : ℚ)),
    C7_emitted_ordered ⟨some ⟨0, 0, 5, exStyle, 0, 4⟩, .Overline⟩ ⟨0, 4, 2, 6, exStyle⟩
      (fun line hl => Option.some.inj hl ▸ (by decide : (0 : ℚ) ≤ (5 : ℚ)))
      (by decide)
      (fun line hl _ => Option.some.inj hl ▸ (by decide : (0 : ℚ) ≤ (6 : ℚ)))⟩

end LineStraddler

namespace LineStraddler

theorem countRunsAux_le (glyphs : List Glyph) : ∀ s : Option SpecRunState,
    countRunsAux s glyphs ≤ glyphs.length + (s.elim 0 fun _ => 1) := by
  induction glyphs with
  | nil =>
    intro s
    cases s <;> simp [countRunsAux]
  | cons glyph rest ih =>
    intro s
    cases s with
    | none =>
      have h1 := ih (some ⟨glyph.line_y, glyph.font_size, glyph.style,
        glyph.x + glyph.width⟩)
      simp [countRunsAux] at h1 ⊢
      omega
    | some s =>
      by_cases hj : s.accepts glyph = true
      · have h1 := ih (some { s with end_x := glyph.x + glyph.width })
        simp [countRunsAux, hj] at h1 ⊢
        omega
      · have h1 := ih (some ⟨glyph.line_y, glyph.font_size, glyph.style,
          glyph.x + glyph.width⟩)
        simp [countRunsAux, bool_eq_false hj] at h1 ⊢
        omega

theorem runLines_length (glyphs : List Glyph) : ∀ g : LineGenerator,
    (runLines g glyphs).length = countRunsAux (toRunState g.ongoing_line) glyphs := by
  induction glyphs with
  | nil =>
    intro g
    cases hg : g.ongoing_line <;>
      simp [runLines, LineGenerator.pop_line, hg, toRunState, countRunsAux]
  | cons glyph rest ih =>
    intro g
    cases hg : g.ongoing_line with
    | none =>
      simp [runLines, LineGenerator.add_glyph_impl, hg, LineGenerator.start_new_line,
        toRunState, countRunsAux, ih]
    | some line =>
      by_cases hc : extendCond line glyph = true
      · have hacc : SpecRunState.accepts
            ⟨line.last_line_y, line.font_size, line.style, line.end_x⟩ glyph = true := hc
        simp [runLines, LineGenerator.add_glyph_impl, hg, hc, toRunState,
          countRunsAux, hacc, ih]
      · have hcf := bool_eq_false hc
        have hacc : SpecRunState.accepts
            ⟨line.last_line_y, line.font_size, line.style, line.end_x⟩ glyph = false := hcf
        simp [runLines, LineGenerator.add_glyph_impl, hg, hcf,
          LineGenerator.start_new_line, toRunState, countRunsAux, hacc, ih]
        omega

/-- C6: for every stream of glyphs fed one at a time to `add_glyph` and
flushed by one `pop_line`, the number of emitted lines equals the number of
maximal runs of the stream — maximal sequences of consecutive glyphs whose
`line_y` and `font_size` are approximately equal to the run's (those of the
glyph that opened it), whose `style` is equal, and whose x-extents continue
forward without overlap — and never exceeds the number of glyphs. -/
theorem C6_line_count (ty : LineType) (glyphs : List Glyph) :
    (runLines (LineGenerator.new ty) glyphs).length = maximalRunCount glyphs ∧
    (runLines (LineGenerator.new ty) glyphs).length ≤ glyphs.length := by
  have h1 := runLines_length glyphs (LineGenerator.new ty)
  have h2 := countRunsAux_le glyphs none
  constructor
  · simpa [maximalRunCount, toRunState, LineGenerator.new] using h1
  · have h3 : toRunState (LineGenerator.new ty).ongoing_line = none := rfl
    rw [h3] at h1
    simp at h2
    omega

end LineStraddler

namespace LineStraddler

theorem rgba_val (r g b a : Nat) (hg : g < 256) (hb : b < 256) (ha : a < 256) :
    (Color.rgba r g b a).val = r * 2 ^ 24 + g * 2 ^ 16 + b * 2 ^ 8 + a := by
  show (r <<< 24) ||| (g <<< 16) ||| (b <<< 8) ||| a = _
  rw [Nat.shiftLeft_eq, Nat.shiftLeft_eq, Nat.shiftLeft_eq]
  have e1 : r * 2 ^ 24 ||| g * 2 ^ 16 = r * 2 ^ 24 + g * 2 ^ 16 := by
    have h := Nat.mul_add_lt_is_or (show g * 2 ^ 16 < 2 ^ 24 by omega) r
    rw [Nat.mul_comm (2 ^ 24) r] at h
    exact h.symm
  have e2 : (r * 2 ^ 24 + g * 2 ^ 16) ||| b * 2 ^ 8
      = r * 2 ^ 24 + g * 2 ^ 16 + b * 2 ^ 8 := by
    have h := Nat.mul_add_lt_is_or (show b * 2 ^ 8 < 2 ^ 16 by omega) (r * 2 ^ 8 + g)
    have h2 : (2 : Nat) ^ 16 * (r * 2 ^ 8 + g) = r * 2 ^ 24 + g * 2 ^ 16 := by ring
    rw [h2] at h
    exact h.symm
  have e3 : (r * 2 ^ 24 + g * 2 ^ 16 + b * 2 ^ 8) ||| a
      = r * 2 ^ 24 + g * 2 ^ 16 + b * 2 ^ 8 + a := by
    have h := Nat.mul_add_lt_is_or (show a < 2 ^ 8 by omega) (r * 2 ^ 16 + g * 2 ^ 8 + b)
    have h2 : (2 : Nat) ^ 8 * (r * 2 ^ 16 + g * 2 ^ 8 + b)
        = r * 2 ^ 24 + g * 2 ^ 16 + b * 2 ^ 8 := by ring
    rw [h2] at h
    exact h.symm
  rw [e1, e2, e3]

/-- C9: for all byte values r, g, b, a, the color built by `Color.rgba`
returns exactly r, g, b, a from `red`, `green`, `blue` and `alpha`,
`components` returns `[r, g, b, a]`, and the packed 32-bit value has red in
the highest byte and alpha in the lowest
(`val = r * 2^24 + g * 2^16 + b * 2^8 + a`). -/
theorem C9_color_roundtrip (r g b a : Nat)
    (hr : r < 256) (hg : g < 256) (hb : b < 256) (ha : a < 256) :
    (Color.rgba r g b a).red = r ∧ (Color.rgba r g b a).green = g ∧
    (Color.rgba r g b a).blue = b ∧ (Color.rgba r g b a).alpha = a ∧
    (Color.rgba r g b a).components = [r, g, b, a] ∧
    (Color.rgba r g b a).val = r * 2 ^ 24 + g * 2 ^ 16 + b * 2 ^ 8 + a := by
  have hv := rgba_val r g b a hg hb ha
  have hred : (Color.rgba r g b a).red = r := by
    show ((Color.rgba r g b a).val >>> 24) &&& 0xFF = r
    rw [hv, Nat.shiftRight_eq_div_pow, show (0xFF : Nat) = 2 ^ 8 - 1 from rfl,
      Nat.and_pow_two_sub_one_eq_mod]
    omega
  have hgreen : (Color.rgba r g b a).green = g := by
    show ((Color.rgba r g b a).val >>> 16) &&& 0xFF = g
    rw [hv, Nat.shiftRight_eq_div_pow, show (0xFF : Nat) = 2 ^ 8 - 1 from rfl,
      Nat.and_pow_two_sub_one_eq_mod]
    omega
  have hblue : (Color.rgba r g b a).blue = b := by
    show ((Color.rgba r g b a).val >>> 8) &&& 0xFF = b
    rw [hv, Nat.shiftRight_eq_div_pow, show (0xFF : Nat) = 2 ^ 8 - 1 from rfl,
      Nat.and_pow_two_sub_one_eq_mod]
    omega
  have halpha : (Color.rgba r g b a).alpha = a := by
    show (Color.rgba r g b a).val &&& 0xFF = a
    rw [hv, show (0xFF : Nat) = 2 ^ 8 - 1 from rfl, Nat.and_pow_two_sub_one_eq_mod]
    omega
  exact ⟨hred, hgreen, hblue, halpha,
    by simp [Color.components, hred, hgreen, hblue, halpha], hv⟩

/-- Witness for C9 at the concrete bytes of src/tests/smoke.rs:254-259. -/
theorem C9_color_roundtrip_witness :
    (1 < 256) ∧ (2 < 256) ∧ (3 < 256) ∧ (4 < 256) ∧
    ((Color.rgba 1 2 3 4).red = 1 ∧ (Color.rgba 1 2 3 4).green = 2 ∧
      (Color.rgba 1 2 3 4).blue = 3 ∧ (Color.rgba 1 2 3 4).alpha = 4 ∧
      (Color.rgba 1 2 3 4).components = [1, 2, 3, 4] ∧
      (Color.rgba 1 2 3 4).val = 1 * 2 ^ 24 + 2 * 2 ^ 16 + 3 * 2 ^ 8 + 4) :=
  ⟨by decide, by decide, by decide, by decide,
    C9_color_roundtrip 1 2 3 4 (by decide) (by decide) (by decide) (by decide)⟩

end LineStraddler

namespace LineStraddler

/-! ## Concrete scenarios from src/tests/smoke.rs -/

example :
    runLines (LineGenerator.new .Underline)
      [⟨0, 4, 2, 0, exStyle⟩, ⟨0, 4, 2, 3, exStyle⟩,
       ⟨5, 4, 2, 0, exStyle⟩, ⟨5, 4, 2, 3, exStyle⟩]
      = [⟨4, 0, 5, exStyle⟩, ⟨9, 0, 5, exStyle⟩] := by decide

example :
    runLines (LineGenerator.new .StrikeThrough)
      [⟨0, 4, 2, 0, exStyle⟩, ⟨0, 4, 2, 3, exStyle⟩,
       ⟨5, 4, 2, 0, exStyle⟩, ⟨5, 4, 2, 3, exStyle⟩]
      = [⟨2, 0, 5, exStyle⟩, ⟨7, 0, 5, exStyle⟩] := by decide

example :
    runLines (LineGenerator.new .Overline)
      [⟨0, 4, 2, 0, exStyle⟩, ⟨0, 4, 2, 3, exStyle⟩,
       ⟨0, 4, 2, 6, exStyle2⟩, ⟨0, 4, 2, 9, exStyle2⟩]
      = [⟨0, 0, 6, exStyle⟩, ⟨0, 6, 11, exStyle2⟩] := by decide

example : runLines (LineGenerator.new .Underline) [] = [] := by decide

end LineStraddler
